import Mathlib

/-!
# Verification of the TemplateForecaster orchestration core (src/main.py)

This file gives a shallow embedding, in Lean 4, of the research / forecast
orchestration logic of `TemplateForecaster` (src/main.py) and proves, or
refutes, the frozen specification claims about it.

Modelling conventions:
* Python strings are Lean `String`s; `str.split(sep)` for a non-empty
  separator is modelled by `pySplit` / `pySplitStr` below, `str.strip()` by
  `pyStrip` (ASCII whitespace), and `lst[-1]` by `List.getLastD`.
* Network calls are oracles passed in as parameters: the search provider is
  `searchO : Nat → Except String String` (call number 0 is the general
  search, call number `i + 1` is the search for the `i`-th key factor), and
  the key-factor model reply is passed in as the `response : String`
  parameter (the claims under study all quantify over the reply text).
* Effects that the claims talk about (search invocations, warning logs and
  sleeps) are recorded in an explicit event trace `List Event`.  The call
  `time.sleep(1)` of the source is recorded as `Event.sleep SleepKind.blocking 1`
  because `time.sleep` blocks the running thread (and hence the whole asyncio
  event loop); an `await asyncio.sleep` would be `SleepKind.suspending`.
* Python local variables that may be unbound (`general_research`, `research`
  in the credential-less branch of `run_research`) are `Option String`; using
  an unbound one raises `PyErr.unboundLocal`, the embedding of Python's
  `UnboundLocalError`.
* The class-level `asyncio.Semaphore(_max_concurrent_questions)` together
  with `async with` is modelled as an explicit labelled transition system
  (`gateStep` / `gateRun`) further below.
-/

set_option maxRecDepth 100000

/-! ## Python string primitives -/

/-- One step of Python `str.split(sep)` for a non-empty separator `sep`,
scanning left to right.  The extra fuel-free `skip` argument counts separator
characters still to be consumed after a match (so the recursion is structural
in the input list).  `pySplitGo sep s 0` is the split of `s`. -/
def pySplitGo (sep : List Char) : List Char → Nat → List (List Char)
  | [], _ => [[]]
  | _ :: rest, k + 1 => pySplitGo sep rest k
  | c :: rest, 0 =>
    if sep.isPrefixOf (c :: rest) then
      [] :: pySplitGo sep rest (sep.length - 1)
    else
      match pySplitGo sep rest 0 with
      | [] => [[c]]
      | seg :: segs => (c :: seg) :: segs

/-- Python `str.split(sep)` on character lists, for a non-empty separator:
greedy left-to-right, non-overlapping, keeps empty segments, and the split of
the empty string is `[[]]` (Python: `"".split(s) == [""]`). -/
def pySplit (sep s : List Char) : List (List Char) :=
  pySplitGo sep s 0

/-- Python `str.split(sep)` on `String`s. -/
def pySplitStr (sep s : String) : List String :=
  (pySplit sep.data s.data).map String.mk

/-- Python `str.strip()` on character lists (ASCII whitespace). -/
def stripChars (s : List Char) : List Char :=
  ((s.dropWhile Char.isWhitespace).reverse.dropWhile Char.isWhitespace).reverse

/-- Python `str.strip()` on `String`s (ASCII whitespace). -/
def pyStrip (s : String) : String :=
  String.mk (stripChars s.data)

/-- A single-quote character (`chr 39`), used to build the literal strings of
the source without a quote character appearing in a Lean string literal. -/
def squote : String :=
  String.singleton (Char.ofNat 39)

example : pySplitStr ":=>" "Factor_1 :=> q1" = ["Factor_1 ", " q1"] := by decide

example : pySplitStr "\n" "a\n\nb" = ["a", "", "b"] := by decide

example : pyStrip "  q1\t" = "q1" := by decide

/-! ## The key-factor extraction (src/main.py lines 106-110)

```python
key_factors = key_factors_response.split("\n")[:5]
for i in range(len(key_factors)):
    key_factors[i] = key_factors[i].split(":=>")[-1].strip()
```
-/

/-- The `:=>` delimiter of the key-factor lines. -/
def factorDelim : String := ":=>"

/-- `line.split(":=>")[-1].strip()` — the loop body of lines 108-110. -/
def extractQuery (line : String) : String :=
  pyStrip ((pySplitStr factorDelim line).getLastD "")

/-- Lines 106-110 of src/main.py: take the first five newline-separated lines
of the model reply and map the query extraction over them. -/
def keyFactors (response : String) : List String :=
  ((pySplitStr "\n" response).take 5).map extractQuery

/-- Modelled from the spec: the specification section 4.2 describes the
extractor output as "taken from the **last** 5 newline-separated lines of the
model's raw response"; this definition follows the spec's words (for
comparison with `keyFactors`, which follows the source). -/
def specKeyFactors (response : String) : List String :=
  let lines := pySplitStr "\n" response
  (lines.drop (lines.length - 5)).map extractQuery

example : keyFactors "a\nb :=> q" = ["a", "q"] := by decide

example :
    specKeyFactors "1\n2\n3\n4\n5\nA :=> qa\nB :=> qb\nC :=> qc\nD :=> qd\nE :=> qe" =
      ["qa", "qb", "qc", "qd", "qe"] := by decide

/-! ## The research pass (src/main.py lines 67-139) -/

/-- Whether a sleep yields control to the cooperative scheduler.  The source
calls `time.sleep(1)` (line 128), which blocks the running thread and hence
the whole asyncio event loop: `SleepKind.blocking`.  An `await asyncio.sleep`
would be `SleepKind.suspending`. -/
inductive SleepKind
  | blocking
  | suspending
deriving DecidableEq, Repr

/-- Observable effects of one research pass: search-provider calls (with
their query), warning logs, and sleeps (with kind and duration in seconds). -/
inductive Event
  | search (query : String)
  | warn (msg : String)
  | sleep (kind : SleepKind) (seconds : Nat)
deriving DecidableEq, Repr

/-- Embedding of Python runtime errors relevant here: referencing a local
variable that was never assigned (`UnboundLocalError`), and an uncaught
search-provider exception propagating out of `run_research`. -/
inductive PyErr
  | unboundLocal
  | searchError (msg : String)
  | extractionError
deriving DecidableEq, Repr

deriving instance DecidableEq for Except

/-- Python truthiness of an `os.getenv` result: `None` and `""` are falsy. -/
def truthy : Option String → Bool
  | none => false
  | some s => !s.isEmpty

/-- A forecasting question, restricted to the fields `run_research` reads. -/
structure Question where
  page_url : String
  question_text : String
deriving DecidableEq, Repr

/-- Line 124 of src/main.py:
`research += f"Research on '{factor}':\n{factor_research}\n\n"`. -/
def researchBlock (factor result : String) : String :=
  "Research on " ++ squote ++ factor ++ squote ++ ":\n" ++ result ++ "\n\n"

/-- Line 126 of src/main.py:
`logger.warning(f"Error researching factor '{factor}': {e}")`. -/
def factorWarnMsg (factor e : String) : String :=
  "Error researching factor " ++ squote ++ factor ++ squote ++ ": " ++ e

/-- The `for factor in key_factors:` loop of lines 119-128.  `i` is the index
of the next search-oracle call; the loop returns the emitted events and the
accumulated `research` string.  A failing factor search is caught (lines
125-126): it logs a warning and contributes no text; the 1-second
`time.sleep` (line 128) runs after every factor regardless of outcome. -/
def factorLoop (searchO : Nat → Except String String) :
    List String → Nat → List Event × String
  | [], _ => ([], "")
  | factor :: rest, i =>
    let (evs, res) := factorLoop searchO rest (i + 1)
    match searchO i with
    | .ok r =>
      (Event.search factor :: Event.sleep .blocking 1 :: evs,
        researchBlock factor r ++ res)
    | .error e =>
      (Event.search factor :: Event.warn (factorWarnMsg factor e) ::
        Event.sleep .blocking 1 :: evs, res)

/-- The 24 spaces of source indentation inside the `full_research` template
literal (lines 133-137 of src/main.py). -/
def indent24 : String := "                        "

/-- The text of the `full_research` f-string (lines 132-134) up to and
including the interpolation point of `general_research`. -/
def briefPreamble (page_url : String) : String :=
  "Research for question " ++ page_url ++ ":\n" ++ indent24 ++
    "Here is the general background information you will require to answer the question. The majority of your reasoning will be based around this information:\n" ++
    indent24

/-- The text of the `full_research` f-string between the `general_research`
and `research` interpolation points (lines 134-137). -/
def briefTransition : String :=
  "\n\n" ++ indent24 ++
    "Your assistant has also found some relevant information on factors that could influence the outcome of this question. This information is not required to answer the question, but should definitely be considered as it will set you apart:\n" ++
    indent24

/-- Lines 132-137 of src/main.py: build `full_research`.  The two local
variables `general_research` and `research` are assigned only on the
credentialed branch; evaluating the f-string with either of them unbound
raises `UnboundLocalError`. -/
def fullResearch (page_url : String) :
    Option String → Option String → Except PyErr String
  | some g, some r => .ok (briefPreamble page_url ++ g ++ briefTransition ++ r)
  | _, _ => .error .unboundLocal

/-- Line 130 of src/main.py. -/
def credsWarnMsg : String := "AskNews credentials not found. Skipping research."

/-- The body of `run_research` (src/main.py lines 67-139), given the
credential environment variables `cid = os.getenv("ASKNEWS_CLIENT_ID")` and
`secret = os.getenv("ASKNEWS_SECRET")`, the key-factor model reply
`response`, and the search oracle `searchO`.  Returns the event trace and
either the `full_research` brief or the propagated error.  (The enclosing
`async with self._concurrency_limiter` gate is modelled separately by
`gateStep` / `gateRun` below.) -/
def runResearch (q : Question) (cid secret : Option String) (response : String)
    (searchO : Nat → Except String String) : List Event × Except PyErr String :=
  let factors := keyFactors response
  if truthy cid && truthy secret then
    match searchO 0 with
    | .error e => ([Event.search q.question_text], .error (.searchError e))
    | .ok g =>
      let (evs, res) := factorLoop searchO factors 1
      (Event.search q.question_text :: evs,
        fullResearch q.page_url (some g) (some res))
  else
    ([Event.warn credsWarnMsg], fullResearch q.page_url none none)

example :
    runResearch ⟨"u", "t"⟩ (some "id") (some "key") "A :=> f1"
        (fun _ => .ok "news") =
      ([Event.search "t", Event.search "f1", Event.sleep .blocking 1],
        .ok (briefPreamble "u" ++ "news" ++ briefTransition ++
          researchBlock "f1" "news")) := by
  decide

example :
    runResearch ⟨"u", "t"⟩ none (some "key") "A :=> f1" (fun _ => .ok "news") =
      ([Event.warn credsWarnMsg], .error .unboundLocal) := by
  decide

/-! ## The bounded-concurrency gate (src/main.py lines 62-68)

```python
_max_concurrent_questions = 2
_concurrency_limiter = asyncio.Semaphore(_max_concurrent_questions)

async def run_research(self, question):
    async with self._concurrency_limiter:
        ...
```

`asyncio.Semaphore(K)` together with `async with` is modelled as a labelled
transition system over the phases of the concurrently launched pipelines.  A
pipeline is `waiting` until the semaphore admits it, then `running n` with
`n` remaining body steps; the body may finish (`bodyDone`) or raise at any
point (`bodyRaise`); either way the `async with` epilogue still has to run
the semaphore release (`releasing` → `finished`).  A slot is held from
successful acquisition until the release transition. -/

/-- Source line 62: `_max_concurrent_questions = 2`. -/
def maxConcurrentQuestions : Nat := 2

/-- Phase of one research+forecast pipeline with respect to the gate. -/
inductive Phase
  | waiting
  | running (rem : Nat)
  | releasing
  | finished
deriving DecidableEq, Repr

/-- Scheduler events: `enter tid n` is a successful `acquire()` admitting
task `tid` with `n` body steps; `work` is one body step; `bodyDone` ends the
body normally; `bodyRaise` models an exception escaping the body; `release`
is the `async with` epilogue freeing the slot. -/
inductive GEvent
  | enter (tid n : Nat)
  | work (tid : Nat)
  | bodyDone (tid : Nat)
  | bodyRaise (tid : Nat)
  | release (tid : Nat)
deriving DecidableEq, Repr

/-- The gate state: the phase of each launched pipeline. -/
abbrev GateSys := List Phase

/-- A pipeline holds a semaphore slot from acquisition until release. -/
def holdsSlot : Phase → Bool
  | .running _ => true
  | .releasing => true
  | _ => false

/-- Number of pipelines currently inside the gate-guarded region. -/
def insideCount (s : GateSys) : Nat := s.countP holdsSlot

/-- One scheduler step; `none` means the event is not enabled (in particular,
`enter` is blocked while `insideCount s = K`, which is `Semaphore.acquire`
suspending the caller). -/
def gateStep (K : Nat) (s : GateSys) : GEvent → Option GateSys
  | .enter tid n =>
    match s[tid]? with
    | some Phase.waiting =>
      if insideCount s < K then some (s.set tid (Phase.running n)) else none
    | _ => none
  | .work tid =>
    match s[tid]? with
    | some (Phase.running (n + 1)) => some (s.set tid (Phase.running n))
    | _ => none
  | .bodyDone tid =>
    match s[tid]? with
    | some (Phase.running 0) => some (s.set tid Phase.releasing)
    | _ => none
  | .bodyRaise tid =>
    match s[tid]? with
    | some (Phase.running _) => some (s.set tid Phase.releasing)
    | _ => none
  | .release tid =>
    match s[tid]? with
    | some Phase.releasing => some (s.set tid Phase.finished)
    | _ => none

/-- Run a whole schedule of gate events. -/
def gateRun (K : Nat) (s : GateSys) : List GEvent → Option GateSys
  | [] => some s
  | e :: es =>
    match gateStep K s e with
    | none => none
    | some s' => gateRun K s' es

/-- Initial state: `n` launched pipelines, none admitted yet. -/
def gateInit (n : Nat) : GateSys := List.replicate n Phase.waiting

/-- Number of `release` events of task `tid` in a schedule. -/
def relCount (tid : Nat) (tr : List GEvent) : Nat :=
  tr.countP (· = GEvent.release tid)

example :
    gateRun maxConcurrentQuestions (gateInit 3)
        [.enter 0 1, .enter 1 1, .bodyRaise 0, .release 0, .enter 2 0,
         .work 1, .bodyDone 1, .release 1, .bodyDone 2, .release 2] =
      some [Phase.finished, Phase.finished, Phase.finished] := by decide

example :
    gateStep maxConcurrentQuestions
      [Phase.running 0, Phase.releasing, Phase.waiting] (.enter 2 5) = none := by
  decide

/-! ## The binary forecast (src/main.py lines 141-233) -/

/-- `ReasonedPrediction` of the forecasting framework: a typed prediction
value paired with the full reasoning transcript that produced it. -/
structure ReasonedPrediction (α : Type) where
  prediction_value : α
  reasoning : String
deriving DecidableEq, Repr

/-- Numeric value of a list of decimal digits. -/
def digitsToNat (ds : List Char) : Nat :=
  ds.foldl (fun n c => 10 * n + (c.toNat - 48)) 0

/-- Scan for percentage-like tokens: a maximal nonempty digit run directly
followed by a percent sign.  `ds` is the digit run read so far, reversed. -/
def percentTokensGo : List Char → List Char → List Nat
  | [], _ => []
  | c :: rest, ds =>
    if c.isDigit then percentTokensGo rest (c :: ds)
    else if c = Char.ofNat 37 && ds ≠ [] then
      digitsToNat ds.reverse :: percentTokensGo rest []
    else percentTokensGo rest []

/-- All percentage-like tokens of a text, in order, as percent values. -/
def percentTokens (s : String) : List Nat :=
  percentTokensGo s.data []

/-- Clamp `x` into the interval `[lo, hi]`. -/
def clampQ (lo hi x : ℚ) : ℚ :=
  if x ≤ lo then lo else if hi ≤ x then hi else x

/-- Modelled from the spec: the extraction contract
`PredictionExtractor.extract_last_percentage_value(reasoning, max_prediction=1,
min_prediction=0)` lives in the external `forecasting_tools` package (not in
this repository); the spec describes it as a black-box contract that locates
the last percentage-like token in the reply and clamps it into
`[min_prediction, max_prediction]`, failing when no such token exists. -/
def extractLastPercentageValue (text : String) (maxP minP : ℚ) : Option ℚ :=
  match (percentTokens text).getLast? with
  | none => none
  | some n => some (clampQ minP maxP (mkRat n 100))

/-- Lines 225-233 of src/main.py (`_run_forecast_on_binary` after the model
reply `reasoning` has been received): extract the prediction with bounds
`max_prediction=1, min_prediction=0` and pair it with the full reply. -/
def runForecastOnBinary (reasoning : String) :
    Except PyErr (ReasonedPrediction ℚ) :=
  match extractLastPercentageValue reasoning 1 0 with
  | some p => .ok ⟨p, reasoning⟩
  | none => .error .extractionError

example : percentTokens "about 70% then Probability: 63%" = [70, 63] := by decide

example :
    runForecastOnBinary "reasoning text. Probability: 63%" =
      .ok ⟨mkRat 63 100, "reasoning text. Probability: 63%"⟩ := by decide

/-! ## The numeric bound messages (src/main.py lines 406-421) -/

/-- A numeric question restricted to the fields that
`_create_upper_and_lower_bound_messages` reads.  Python's float bounds are
modelled as rationals. -/
structure NumericQuestion where
  lower_bound : ℚ
  upper_bound : ℚ
  open_lower_bound : Bool
  open_upper_bound : Bool
deriving DecidableEq, Repr

/-- Lines 406-421 of src/main.py: a pure helper returning
`(upper_bound_message, lower_bound_message)`. -/
def createUpperAndLowerBoundMessages (q : NumericQuestion) : String × String :=
  let upper_bound_message :=
    if q.open_upper_bound then ""
    else "The outcome can not be higher than " ++ toString q.upper_bound ++ "."
  let lower_bound_message :=
    if q.open_lower_bound then ""
    else "The outcome can not be lower than " ++ toString q.lower_bound ++ "."
  (upper_bound_message, lower_bound_message)

example :
    createUpperAndLowerBoundMessages ⟨0, 1000, true, false⟩ =
      ("The outcome can not be higher than 1000.", "") := by decide

/-! ## Lemmas about the splitting primitive -/

theorem pySplitGo_ne_nil (sep : List Char) :
    ∀ (s : List Char) (k : Nat), pySplitGo sep s k ≠ [] := by
  intro s
  induction s with
  | nil => intro k; simp [pySplitGo]
  | cons c rest ih =>
    intro k
    match k with
    | k + 1 => simpa [pySplitGo] using ih k
    | 0 =>
      rw [pySplitGo]
      split
      · simp
      · rcases h : pySplitGo sep rest 0 with _ | ⟨seg, segs⟩ <;> simp

theorem pySplit_ne_nil (sep s : List Char) : pySplit sep s ≠ [] :=
  pySplitGo_ne_nil sep s 0

/-- Consuming `u.length` pending separator characters skips over `u`. -/
theorem pySplitGo_skip (sep : List Char) :
    ∀ (u v : List Char), pySplitGo sep (u ++ v) u.length = pySplitGo sep v 0 := by
  intro u
  induction u with
  | nil => intro v; rfl
  | cons c u ih => intro v; simpa [pySplitGo] using ih v

/-- Splitting a string that starts with the separator. -/
theorem pySplit_sep_append (sep t : List Char) (hsep : sep ≠ []) :
    pySplit sep (sep ++ t) = [] :: pySplit sep t := by
  rcases sep with _ | ⟨d, sep'⟩
  · exact absurd rfl hsep
  · show pySplitGo (d :: sep') (d :: (sep' ++ t)) 0 = _
    rw [pySplitGo]
    have hpre : (d :: sep').isPrefixOf (d :: (sep' ++ t)) = true := by
      rw [List.isPrefixOf_iff_prefix]
      exact ⟨t, by simp⟩
    rw [if_pos hpre]
    simp only [List.length_cons, Nat.add_sub_cancel]
    rw [pySplitGo_skip (d :: sep') sep' t]
    rfl

/-- Splitting at a position where the separator does not match. -/
theorem pySplit_cons_not_prefix (sep : List Char) (c : Char) (rest : List Char)
    (h : ¬ sep.isPrefixOf (c :: rest) = true) :
    ∃ seg segs, pySplit sep rest = seg :: segs ∧
      pySplit sep (c :: rest) = (c :: seg) :: segs := by
  rcases hres : pySplit sep rest with _ | ⟨seg, segs⟩
  · exact absurd hres (pySplit_ne_nil sep rest)
  · refine ⟨seg, segs, rfl, ?_⟩
    show pySplitGo sep (c :: rest) 0 = _
    rw [pySplitGo, if_neg h]
    rw [show pySplitGo sep rest 0 = seg :: segs from hres]

/-- A string not containing the separator is returned whole. -/
theorem pySplit_of_not_infix (sep : List Char) (_hsep : sep ≠ []) :
    ∀ (s : List Char), ¬ sep <:+: s → pySplit sep s = [s] := by
  intro s
  induction s with
  | nil => intro _; rfl
  | cons c rest ih =>
    intro hinf
    have hpre : ¬ sep.isPrefixOf (c :: rest) = true := by
      intro hp
      exact hinf ((List.isPrefixOf_iff_prefix.mp hp).isInfix)
    obtain ⟨seg, segs, hrest, hcons⟩ := pySplit_cons_not_prefix sep c rest hpre
    have : pySplit sep rest = [rest] := by
      refine ih fun hinf' => hinf ?_
      exact (List.infix_cons_iff).mpr (Or.inr hinf')
    rw [this] at hrest
    cases hrest
    simpa using hcons

/-- A string containing the separator splits into at least two segments. -/
theorem two_le_length_pySplit_of_infix (sep : List Char) (hsep : sep ≠ []) :
    ∀ (s : List Char), sep <:+: s → 2 ≤ (pySplit sep s).length := by
  intro s
  induction s with
  | nil =>
    intro hinf
    exact absurd (List.eq_nil_of_infix_nil hinf) hsep
  | cons c rest ih =>
    intro hinf
    by_cases hpre : sep.isPrefixOf (c :: rest) = true
    · obtain ⟨t, ht⟩ := List.isPrefixOf_iff_prefix.mp hpre
      rw [← ht, pySplit_sep_append sep t hsep]
      have hlen : 0 < (pySplit sep t).length :=
        List.length_pos.mpr (pySplit_ne_nil sep t)
      simp only [List.length_cons]
      omega
    · obtain ⟨seg, segs, hrest, hcons⟩ := pySplit_cons_not_prefix sep c rest hpre
      have hinf' : sep <:+: rest := by
        rcases (List.infix_cons_iff).mp hinf with hp | hi
        · exact absurd (List.isPrefixOf_iff_prefix.mpr hp) hpre
        · exact hi
      have := ih hinf'
      rw [hrest] at this
      rw [hcons]
      simpa using this


/-- `getLastD` of a nonempty list does not depend on the default. -/
theorem getLastD_irrel {α : Type} (l : List α) (h : l ≠ []) (x y : α) :
    l.getLastD x = l.getLastD y := by
  rw [List.getLastD_eq_getLast?, List.getLastD_eq_getLast?]
  rcases hv : l.getLast? with _ | v
  · rw [List.getLast?_eq_none_iff] at hv
    exact absurd hv h
  · rfl

/-- A separator has no self-overlap when no proper prefix of it is also a
proper suffix of it.  (The `:=>` delimiter has none, so its occurrences in a
string are pairwise disjoint and greedy splitting reaches the last one.) -/
def NoSelfOverlap (sep : List Char) : Prop :=
  ∀ k, k < sep.length → 0 < k → sep.take k ≠ sep.drop (sep.length - k)

theorem noSelfOverlap_factorDelim : NoSelfOverlap factorDelim.data := by
  unfold NoSelfOverlap
  decide

/-- If a separator with no self-overlap matches at the start of
`a ++ sep ++ b` with `a` nonempty, the match lies entirely inside `a`. -/
theorem prefix_of_append_of_noSelfOverlap (sep a b : List Char)
    (hnov : NoSelfOverlap sep) (ha : a ≠ [])
    (h : sep <+: a ++ sep ++ b) : sep <+: a := by
  rcases Nat.lt_or_ge a.length sep.length with hlt | hge
  · exfalso
    obtain ⟨t, ht⟩ := h
    have hla : 0 < a.length := List.length_pos.mpr ha
    have e1 : a.length - sep.length = 0 := Nat.sub_eq_zero_of_le hlt.le
    have e2 : a.length - (a ++ sep).length = 0 := by
      simp only [List.length_append]; omega
    have e3 : sep.length - (a ++ sep).length = 0 := by
      simp only [List.length_append]; omega
    have h1 := congrArg (List.take a.length) ht
    rw [List.take_append_eq_append_take, List.take_append_eq_append_take,
      List.take_append_eq_append_take, e1, e2, Nat.sub_self] at h1
    simp only [List.take_zero, List.append_nil, List.take_length] at h1
    -- h1 : sep.take a.length = a
    have h2 := congrArg (List.take sep.length) ht
    rw [List.take_append_eq_append_take, List.take_append_eq_append_take,
      List.take_append_eq_append_take, e3, Nat.sub_self] at h2
    simp only [List.take_zero, List.append_nil, List.take_length] at h2
    rw [List.take_of_length_le hlt.le] at h2
    -- h2 : sep = a ++ sep.take (sep.length - a.length)
    have h3 : sep.drop a.length = sep.take (sep.length - a.length) := by
      conv_lhs => rw [h2]
      rw [← h1]
      exact List.drop_left _ _
    have hk1 : sep.length - a.length < sep.length := by omega
    have hk2 : 0 < sep.length - a.length := by omega
    have := hnov (sep.length - a.length) hk1 hk2
    rw [show sep.length - (sep.length - a.length) = a.length by omega] at this
    exact this h3.symm
  · have h' : sep <+: a ++ (sep ++ b) := by
      rw [← List.append_assoc]; exact h
    exact List.prefix_of_prefix_length_le h' (List.prefix_append a (sep ++ b)) hge

/-- Greedy left-to-right splitting on a separator with no self-overlap: when
the text ends with an occurrence of the separator followed by `b` that holds
no further occurrence, the last segment of the split is exactly `b`. -/
theorem pySplit_getLastD (sep : List Char) (hsep : sep ≠ [])
    (hnov : NoSelfOverlap sep) :
    ∀ (n : Nat) (a b : List Char), a.length ≤ n → ¬ sep <:+: b →
      (pySplit sep (a ++ sep ++ b)).getLastD [] = b := by
  have nilCase : ∀ b : List Char, ¬ sep <:+: b →
      (pySplit sep (([] : List Char) ++ sep ++ b)).getLastD [] = b := by
    intro b hb
    rw [List.nil_append, pySplit_sep_append sep b hsep,
      pySplit_of_not_infix sep hsep b hb]
    rfl
  intro n
  induction n with
  | zero =>
    intro a b hle hb
    have ha : a = [] := List.eq_nil_of_length_eq_zero (Nat.le_zero.mp hle)
    rw [ha]
    exact nilCase b hb
  | succ n ih =>
    intro a b hle hb
    rcases a with _ | ⟨c, a'⟩
    · exact nilCase b hb
    · by_cases hpre : sep.isPrefixOf ((c :: a') ++ sep ++ b) = true
      · have hpfx : sep <+: (c :: a') ++ sep ++ b :=
          List.isPrefixOf_iff_prefix.mp hpre
        have hsa : sep <+: (c :: a') :=
          prefix_of_append_of_noSelfOverlap sep (c :: a') b hnov (by simp) hpfx
        obtain ⟨a'', ha''⟩ := hsa
        have hs : (c :: a') ++ sep ++ b = sep ++ (a'' ++ sep ++ b) := by
          rw [← ha'']
          simp [List.append_assoc]
        rw [hs, pySplit_sep_append sep _ hsep, List.getLastD_cons]
        have hlen : a''.length ≤ n := by
          have := congrArg List.length ha''
          simp only [List.length_append, List.length_cons] at this
          have hs1 : 0 < sep.length := List.length_pos.mpr hsep
          simp only [List.length_cons] at hle
          omega
        exact ih a'' b hlen hb
      · have hflat : (c :: a') ++ sep ++ b = c :: (a' ++ sep ++ b) := by simp
        have hpre' : ¬ sep.isPrefixOf (c :: (a' ++ sep ++ b)) = true := by
          rw [← hflat]; exact hpre
        obtain ⟨seg, segs, hrest, hcons⟩ :=
          pySplit_cons_not_prefix sep c (a' ++ sep ++ b) hpre'
        rw [hflat, hcons, List.getLastD_cons]
        have hinf : sep <:+: a' ++ sep ++ b := ⟨a', b, rfl⟩
        have hlen2 := two_le_length_pySplit_of_infix sep hsep _ hinf
        rw [hrest] at hlen2
        have hsegs : segs ≠ [] := by
          intro h0
          rw [h0] at hlen2
          simp at hlen2
        have hlen : a'.length ≤ n := by
          simp only [List.length_cons] at hle
          omega
        have hih := ih a' b hlen hb
        rw [hrest, List.getLastD_cons] at hih
        rw [getLastD_irrel segs hsegs (c :: seg) seg]
        exact hih

theorem string_mk_data (s : String) : String.mk s.data = s := rfl

theorem factorDelim_ne_nil : factorDelim.data ≠ [] := by decide

/-- `getLastD` commutes with rebuilding the segments into `String`s. -/
theorem getLastD_map_mk (L : List (List Char)) (h : L ≠ []) :
    (L.map String.mk).getLastD "" = String.mk (L.getLastD []) := by
  rw [List.getLastD_eq_getLast?, List.getLastD_eq_getLast?, List.getLast?_map]
  rcases hv : L.getLast? with _ | v
  · rw [List.getLast?_eq_none_iff] at hv
    exact absurd hv h
  · rfl

/-- `extractQuery`, stated over the underlying character list. -/
theorem extractQuery_eq (line : String) :
    extractQuery line =
      pyStrip (String.mk ((pySplit factorDelim.data line.data).getLastD [])) := by
  unfold extractQuery pySplitStr
  rw [getLastD_map_mk _ (pySplit_ne_nil factorDelim.data line.data)]

/-- A line without the delimiter is passed through whole (before `strip`). -/
theorem extractQuery_of_no_delim (line : String)
    (h : ¬ factorDelim.data <:+: line.data) : extractQuery line = pyStrip line := by
  rw [extractQuery_eq,
    pySplit_of_not_infix factorDelim.data factorDelim_ne_nil line.data h]
  rfl

/-! ## Claims C1, C6, C10: the key-factor extraction -/

/-- C10: for every response line containing the `:=>` delimiter more than
once, the extracted search query is exactly the trimmed text after the last
occurrence of `:=>`; all text before that last occurrence (including earlier
delimiter-separated segments) is discarded.  The line is presented as
`a ++ ":=>" ++ b` where `a` holds at least one further occurrence and `b`,
the text after the last occurrence, holds none. -/
theorem c10_query_after_last_delim (a b : String)
    (_hmore : factorDelim.data <:+: a.data)
    (hlast : ¬ factorDelim.data <:+: b.data) :
    extractQuery (a ++ factorDelim ++ b) = pyStrip b := by
  rw [extractQuery_eq]
  have hdata : (a ++ factorDelim ++ b).data =
      a.data ++ factorDelim.data ++ b.data := by
    rw [String.data_append, String.data_append]
  rw [hdata, pySplit_getLastD factorDelim.data factorDelim_ne_nil
    noSelfOverlap_factorDelim a.data.length a.data b.data (Nat.le_refl _) hlast]

theorem c10_query_after_last_delim_witness :
    extractQuery ("Factor_1 :=> old" ++ factorDelim ++ " new query ") =
      pyStrip " new query " :=
  c10_query_after_last_delim "Factor_1 :=> old" " new query "
    (by decide) (by decide)

/-- C6: a response with fewer than 5 newline-separated lines yields
correspondingly fewer factors (no synthetic padding), and every line lacking
the `:=>` delimiter is used, whitespace-trimmed, verbatim as that factor's
query (the factors being the per-line query extractions, in line order). -/
theorem c6_short_response_and_no_delim (response : String) :
    ((pySplitStr "\n" response).length < 5 →
      (keyFactors response).length = (pySplitStr "\n" response).length) ∧
    keyFactors response = ((pySplitStr "\n" response).take 5).map extractQuery ∧
    ∀ l ∈ (pySplitStr "\n" response).take 5,
      ¬ factorDelim.data <:+: l.data → extractQuery l = pyStrip l := by
  refine ⟨?_, rfl, ?_⟩
  · intro h
    unfold keyFactors
    rw [List.length_map, List.length_take]
    omega
  · intro l _ h
    exact extractQuery_of_no_delim l h

theorem c6_short_response_and_no_delim_witness :
    (keyFactors "first line\nSecond :=> q2").length =
        (pySplitStr "\n" "first line\nSecond :=> q2").length ∧
      extractQuery "first line" = pyStrip "first line" :=
  ⟨(c6_short_response_and_no_delim "first line\nSecond :=> q2").1 (by decide),
   (c6_short_response_and_no_delim "first line\nSecond :=> q2").2.2 "first line"
     (by decide) (by decide)⟩

/-- C1 (refuted on the code — code bug): on a well-formed reply whose five
`Label :=> query` lines are the last five lines, as the source's own prompt
instructs ("The last thing you write is: Factor_1 :=> ..."), the source's
extraction `key_factors_response.split("\n")[:5]` takes the FIRST five
newline-separated lines (the numbered prose list), not the queries from the
last five lines that the spec describes. -/
theorem c1_first_five_not_last_five :
    keyFactors
        "1. status quo\n2. trend\n3. drivers\n4. policy\n5. events\nFactor_1 :=> qa\nFactor_2 :=> qb\nFactor_3 :=> qc\nFactor_4 :=> qd\nFactor_5 :=> qe" =
        ["1. status quo", "2. trend", "3. drivers", "4. policy", "5. events"] ∧
      specKeyFactors
        "1. status quo\n2. trend\n3. drivers\n4. policy\n5. events\nFactor_1 :=> qa\nFactor_2 :=> qb\nFactor_3 :=> qc\nFactor_4 :=> qd\nFactor_5 :=> qe" =
        ["qa", "qb", "qc", "qd", "qe"] ∧
      keyFactors
        "1. status quo\n2. trend\n3. drivers\n4. policy\n5. events\nFactor_1 :=> qa\nFactor_2 :=> qb\nFactor_3 :=> qc\nFactor_4 :=> qd\nFactor_5 :=> qe" ≠
        specKeyFactors
          "1. status quo\n2. trend\n3. drivers\n4. policy\n5. events\nFactor_1 :=> qa\nFactor_2 :=> qb\nFactor_3 :=> qc\nFactor_4 :=> qd\nFactor_5 :=> qe" := by
  decide

/-! ## Structure of one research pass -/

/-- Concatenation of a list of strings. -/
def strConcat : List String → String
  | [] => ""
  | s :: rest => s ++ strConcat rest

/-- The brief block contributed by the factor at oracle index `p.1`: its
`Research on '...'` block if that search succeeded, nothing if it failed. -/
def blockOf (searchO : Nat → Except String String) (p : Nat × String) :
    Option String :=
  match searchO p.1 with
  | .ok r => some (researchBlock p.2 r)
  | .error _ => none

/-- The events emitted for the factor at oracle index `p.1`: its search call,
a warning if that search failed, and the pacing sleep in either case. -/
def perFactorEvents (searchO : Nat → Except String String) (p : Nat × String) :
    List Event :=
  match searchO p.1 with
  | .ok _ => [Event.search p.2, Event.sleep .blocking 1]
  | .error e =>
    [Event.search p.2, Event.warn (factorWarnMsg p.2 e), Event.sleep .blocking 1]

/-- The accumulated `research` text is the concatenation of the blocks of the
successful factors, in factor order; failed factors contribute nothing. -/
theorem factorLoop_research (searchO : Nat → Except String String) :
    ∀ (fs : List String) (i : Nat),
      (factorLoop searchO fs i).2 =
        strConcat ((fs.enumFrom i).filterMap (blockOf searchO)) := by
  intro fs
  induction fs with
  | nil => intro i; rfl
  | cons f rest ih =>
    intro i
    rcases h : searchO i with e | r <;>
      simp [factorLoop, List.enumFrom, blockOf, h, strConcat, ih (i + 1)]

/-- The events of the factor loop are the per-factor event lists, in factor
order. -/
theorem factorLoop_trace (searchO : Nat → Except String String) :
    ∀ (fs : List String) (i : Nat),
      (factorLoop searchO fs i).1 =
        ((fs.enumFrom i).map (perFactorEvents searchO)).flatten := by
  intro fs
  induction fs with
  | nil => intro i; rfl
  | cons f rest ih =>
    intro i
    rcases h : searchO i with e | r <;>
      simp [factorLoop, List.enumFrom, perFactorEvents, h, ih (i + 1)]

/-- Every search issued by the factor loop searches one of the factors. -/
theorem factorLoop_search_mem (searchO : Nat → Except String String) :
    ∀ (fs : List String) (i : Nat) (f : String),
      Event.search f ∈ (factorLoop searchO fs i).1 → f ∈ fs := by
  intro fs
  induction fs with
  | nil => intro i f h; simp [factorLoop] at h
  | cons g rest ih =>
    intro i f h
    rcases hs : searchO i with e | r <;>
      simp only [factorLoop, hs, List.mem_cons] at h
    · rcases h with h | h | h | h
      · rw [Event.search.injEq] at h
        exact h ▸ List.mem_cons_self g rest
      · exact absurd h (by simp)
      · exact absurd h (by simp)
      · exact List.mem_cons_of_mem g (ih (i + 1) f h)
    · rcases h with h | h | h
      · rw [Event.search.injEq] at h
        exact h ▸ List.mem_cons_self g rest
      · exact absurd h (by simp)
      · exact List.mem_cons_of_mem g (ih (i + 1) f h)

/-- With credentials present and a successful general search, `run_research`
issues the general search first, runs the factor loop, and returns the
assembled brief. -/
theorem runResearch_ok (q : Question) (cid secret : Option String)
    (response g : String) (searchO : Nat → Except String String)
    (h1 : truthy cid = true) (h2 : truthy secret = true)
    (hg : searchO 0 = .ok g) :
    runResearch q cid secret response searchO =
      (Event.search q.question_text ::
          (factorLoop searchO (keyFactors response) 1).1,
        .ok (briefPreamble q.page_url ++ g ++ briefTransition ++
          (factorLoop searchO (keyFactors response) 1).2)) := by
  unfold runResearch
  rw [h1, h2, hg]
  simp [fullResearch]

/-! ## Claims C2, C3, C5, C9: the research pass -/

/-- C2 (refuted on the code — code bug): with the search-provider credentials
absent, `run_research` never invokes search and does emit the warning, but it
does NOT return a non-failing brief: line 132 evaluates the `full_research`
f-string, whose `general_research` and `research` locals were only assigned
inside the credentialed branch, so Python raises `UnboundLocalError` instead
of returning a brief with an empty general-research section. -/
theorem c2_missing_creds_raises (q : Question) (cid secret : Option String)
    (response : String) (searchO : Nat → Except String String)
    (h : (truthy cid && truthy secret) = false) :
    runResearch q cid secret response searchO =
        ([Event.warn credsWarnMsg], .error PyErr.unboundLocal) ∧
      ∀ f, Event.search f ∉ (runResearch q cid secret response searchO).1 := by
  unfold runResearch
  rw [h]
  exact ⟨rfl, by simp⟩

theorem c2_missing_creds_raises_witness :
    runResearch ⟨"https://q.example/1", "Will it rain?"⟩ none (some "secret")
        "A :=> f1" (fun _ => .ok "news") =
      ([Event.warn credsWarnMsg], .error PyErr.unboundLocal) :=
  (c2_missing_creds_raises ⟨"https://q.example/1", "Will it rain?"⟩ none
    (some "secret") "A :=> f1" (fun _ => .ok "news") (by decide)).1

/-- A failing factor search leaves a warning in the loop's event trace. -/
theorem factorLoop_warn_mem (searchO : Nat → Except String String) :
    ∀ (fs : List String) (i j : Nat) (f e : String),
      (j, f) ∈ fs.enumFrom i → searchO j = .error e →
        Event.warn (factorWarnMsg f e) ∈ (factorLoop searchO fs i).1 := by
  intro fs
  induction fs with
  | nil => intro i j f e hmem _; simp [List.enumFrom] at hmem
  | cons g rest ih =>
    intro i j f e hmem herr
    simp only [List.enumFrom, List.mem_cons, Prod.mk.injEq] at hmem
    rcases hmem with ⟨hj, hf⟩ | hmem
    · subst hj
      subst hf
      rw [factorLoop, herr]
      simp
    · have hrec := ih (i + 1) j f e hmem herr
      rcases hcall : searchO i with e' | r <;> rw [factorLoop, hcall] <;> simp_all

/-- C3: whenever credentials are present and the general search succeeds, the
research pass succeeds no matter which factor searches fail: the brief is the
preamble, the general text, the transition, and the blocks of exactly the
successful factors (failed factors contribute nothing beyond a warning log),
so the general search text always occurs inside the brief. -/
theorem c3_general_text_in_brief (q : Question) (cid secret : Option String)
    (response g : String) (searchO : Nat → Except String String)
    (h1 : truthy cid = true) (h2 : truthy secret = true)
    (hg : searchO 0 = .ok g) :
    (∃ brief, (runResearch q cid secret response searchO).2 = .ok brief ∧
      brief = briefPreamble q.page_url ++ g ++ (briefTransition ++
        strConcat (((keyFactors response).enumFrom 1).filterMap
          (blockOf searchO))) ∧
      ∃ p s, brief = p ++ g ++ s) ∧
    ∀ p ∈ (keyFactors response).enumFrom 1, ∀ e, searchO p.1 = .error e →
      Event.warn (factorWarnMsg p.2 e) ∈
        (runResearch q cid secret response searchO).1 := by
  constructor
  · rw [runResearch_ok q cid secret response g searchO h1 h2 hg]
    refine ⟨_, rfl, ?_, briefPreamble q.page_url,
      briefTransition ++ (factorLoop searchO (keyFactors response) 1).2, ?_⟩
    · rw [factorLoop_research searchO (keyFactors response) 1,
        String.append_assoc]
    · rw [String.append_assoc]
  · intro p hp e herr
    rw [runResearch_ok q cid secret response g searchO h1 h2 hg]
    exact List.mem_cons_of_mem _
      (factorLoop_warn_mem searchO (keyFactors response) 1 p.1 p.2 e hp herr)

theorem c3_general_text_in_brief_witness :
    ∃ brief,
      (runResearch ⟨"u", "t"⟩ (some "id") (some "key") "A :=> f1\nB :=> f2"
          (fun i => if i = 2 then .error "boom" else .ok "general news")).2 =
        .ok brief ∧
      brief = briefPreamble "u" ++ "general news" ++ (briefTransition ++
        strConcat (((keyFactors "A :=> f1\nB :=> f2").enumFrom 1).filterMap
          (blockOf (fun i => if i = 2 then .error "boom"
            else .ok "general news")))) ∧
      ∃ p s, brief = p ++ "general news" ++ s :=
  (c3_general_text_in_brief ⟨"u", "t"⟩ (some "id") (some "key")
    "A :=> f1\nB :=> f2" "general news"
    (fun i => if i = 2 then .error "boom" else .ok "general news")
    (by decide) (by decide) (by decide)).1

/-- C5: with credentials present and a successful general search, the brief
is exactly the concatenation, in order, of the preamble, the general search
result, the transition sentence, and one `Research on '<factor>':\n<result>\n\n`
block per successful factor in extraction order; and the general search is
the first search of the pass (every other search is a factor search). -/
theorem c5_brief_concatenation_and_order (q : Question)
    (cid secret : Option String) (response g : String)
    (searchO : Nat → Except String String)
    (h1 : truthy cid = true) (h2 : truthy secret = true)
    (hg : searchO 0 = .ok g) :
    runResearch q cid secret response searchO =
        (Event.search q.question_text ::
            (((keyFactors response).enumFrom 1).map
              (perFactorEvents searchO)).flatten,
          .ok (briefPreamble q.page_url ++ g ++ briefTransition ++
            strConcat (((keyFactors response).enumFrom 1).filterMap
              (blockOf searchO)))) ∧
      ∀ f, Event.search f ∈ (runResearch q cid secret response searchO).1 →
        f = q.question_text ∨ f ∈ keyFactors response := by
  have hrun := runResearch_ok q cid secret response g searchO h1 h2 hg
  constructor
  · rw [hrun, factorLoop_trace, factorLoop_research]
  · intro f hf
    rw [hrun] at hf
    simp only [List.mem_cons] at hf
    rcases hf with hf | hf
    · rw [Event.search.injEq] at hf
      exact Or.inl hf
    · exact Or.inr (factorLoop_search_mem searchO _ 1 f hf)

theorem c5_brief_concatenation_and_order_witness :
    runResearch ⟨"u", "t"⟩ (some "id") (some "key") "A :=> f1\nB :=> f2"
        (fun i => if i = 2 then .error "boom" else .ok "news") =
      (Event.search "t" ::
          (((keyFactors "A :=> f1\nB :=> f2").enumFrom 1).map
            (perFactorEvents
              (fun i => if i = 2 then .error "boom" else .ok "news"))).flatten,
        .ok (briefPreamble "u" ++ "news" ++ briefTransition ++
          strConcat (((keyFactors "A :=> f1\nB :=> f2").enumFrom 1).filterMap
            (blockOf
              (fun i => if i = 2 then .error "boom" else .ok "news"))))) :=
  (c5_brief_concatenation_and_order ⟨"u", "t"⟩ (some "id") (some "key")
    "A :=> f1\nB :=> f2" "news"
    (fun i => if i = 2 then .error "boom" else .ok "news")
    (by decide) (by decide) (by decide)).1

/-- The sleep kind of an event, if it is a sleep. -/
def sleepKindOf : Event → Option SleepKind
  | Event.sleep k _ => some k
  | _ => none

/-- The factor loop sleeps exactly once per factor, success or failure. -/
theorem factorLoop_sleep_count (searchO : Nat → Except String String) :
    ∀ (fs : List String) (i : Nat),
      (factorLoop searchO fs i).1.countP (fun e => (sleepKindOf e).isSome) =
        fs.length := by
  intro fs
  induction fs with
  | nil => intro i; rfl
  | cons f rest ih =>
    intro i
    rcases hs : searchO i with e | r <;>
      simp only [factorLoop, hs, List.countP_cons, List.length_cons] <;>
      rw [ih (i + 1)] <;> simp [sleepKindOf]

/-- Every sleep of the factor loop is the fixed 1-second blocking sleep. -/
theorem factorLoop_sleep_blocking (searchO : Nat → Except String String) :
    ∀ (fs : List String) (i : Nat), ∀ e ∈ (factorLoop searchO fs i).1,
      (sleepKindOf e).isSome → e = Event.sleep SleepKind.blocking 1 := by
  intro fs
  induction fs with
  | nil => intro i e he; simp [factorLoop] at he
  | cons f rest ih =>
    intro i e he hs
    rcases hcall : searchO i with err | r <;>
      simp only [factorLoop, hcall, List.mem_cons] at he
    · rcases he with he | he | he | he
      · rw [he] at hs; simp [sleepKindOf] at hs
      · rw [he] at hs; simp [sleepKindOf] at hs
      · exact he
      · exact ih (i + 1) e he hs
    · rcases he with he | he | he
      · rw [he] at hs; simp [sleepKindOf] at hs
      · exact he
      · exact ih (i + 1) e he hs

/-- C9 as stated is refuted (counterexample): the pacing delay between factor
searches is `time.sleep(1)`, a scheduler-blocking sleep, so the trace of a
credentialed research pass with a factor contains a blocking sleep — it is
not a suspension point yielding to the cooperative scheduler. -/
theorem c9_pacing_counterexample :
    ¬ (∀ e ∈ (runResearch ⟨"u", "t"⟩ (some "id") (some "key") "A :=> f1"
          (fun _ => .ok "news")).1,
        sleepKindOf e ≠ some SleepKind.blocking) := by
  decide

/-- C9 (amended): in every credentialed research pass, a fixed 1-second
pacing delay runs after each factor search regardless of that search's
success or failure (one sleep per factor, placed between consecutive factor
searches), but the delay is a scheduler-blocking `time.sleep(1)`, not a
suspension point of the cooperative scheduler. -/
theorem c9_blocking_pacing_each_factor (q : Question)
    (cid secret : Option String) (response g : String)
    (searchO : Nat → Except String String)
    (h1 : truthy cid = true) (h2 : truthy secret = true)
    (hg : searchO 0 = .ok g) :
    ((runResearch q cid secret response searchO).1 =
        Event.search q.question_text ::
          (((keyFactors response).enumFrom 1).map
            (perFactorEvents searchO)).flatten) ∧
      ((runResearch q cid secret response searchO).1.countP
          (fun e => (sleepKindOf e).isSome) = (keyFactors response).length) ∧
      ∀ e ∈ (runResearch q cid secret response searchO).1,
        (sleepKindOf e).isSome → e = Event.sleep SleepKind.blocking 1 := by
  have hrun := runResearch_ok q cid secret response g searchO h1 h2 hg
  refine ⟨?_, ?_, ?_⟩
  · rw [hrun, factorLoop_trace]
  · rw [hrun]
    simp only [List.countP_cons]
    rw [factorLoop_sleep_count]
    simp [sleepKindOf]
  · intro e he hs
    rw [hrun] at he
    simp only [List.mem_cons] at he
    rcases he with he | he
    · rw [he] at hs
      simp [sleepKindOf] at hs
    · exact factorLoop_sleep_blocking searchO _ 1 e he hs

theorem c9_blocking_pacing_each_factor_witness :
    (runResearch ⟨"u", "t"⟩ (some "id") (some "key") "A :=> f1\nB :=> f2"
        (fun i => if i = 2 then .error "boom" else .ok "news")).1.countP
        (fun e => (sleepKindOf e).isSome) =
      (keyFactors "A :=> f1\nB :=> f2").length :=
  (c9_blocking_pacing_each_factor ⟨"u", "t"⟩ (some "id") (some "key")
    "A :=> f1\nB :=> f2" "news"
    (fun i => if i = 2 then .error "boom" else .ok "news")
    (by decide) (by decide) (by decide)).2.1

/-! ## Claims C7, C8: binary extraction and bound messages -/

/-- The clamped value lies in the clamping interval. -/
theorem clampQ_mem (lo hi x : ℚ) (h : lo ≤ hi) :
    lo ≤ clampQ lo hi x ∧ clampQ lo hi x ≤ hi := by
  unfold clampQ
  split_ifs with h1 h2
  · exact ⟨le_refl lo, h⟩
  · exact ⟨h, le_refl hi⟩
  · constructor <;> linarith

/-- C7: for every reasoning reply from which a percentage can be extracted,
the binary forecaster returns a `ReasonedPrediction` whose value is the last
percentage-like token of the reply clamped into `[0, 1]` (so the value always
lies in `[0, 1]`) and whose reasoning field is the full reply text; a reply
ending in `Probability: 63%` yields `0.63`. -/
theorem c7_binary_last_percentage_clamped :
    (∀ (reasoning : String) (p : ℚ),
        extractLastPercentageValue reasoning 1 0 = some p →
          runForecastOnBinary reasoning = .ok ⟨p, reasoning⟩ ∧
            0 ≤ p ∧ p ≤ 1) ∧
      runForecastOnBinary "reasoning text. Probability: 63%" =
        .ok ⟨mkRat 63 100, "reasoning text. Probability: 63%"⟩ ∧
      (mkRat 63 100 : ℚ) = 63 / 100 := by
  refine ⟨?_, by decide, by norm_num [Rat.mkRat_eq_div]⟩
  intro reasoning p hp
  constructor
  · unfold runForecastOnBinary
    rw [hp]
  · unfold extractLastPercentageValue at hp
    rcases hlast : (percentTokens reasoning).getLast? with _ | n <;>
      rw [hlast] at hp
    · cases hp
    · have : p = clampQ 0 1 (mkRat n 100) := by
        cases hp
        rfl
      rw [this]
      exact clampQ_mem 0 1 (mkRat n 100) (by norm_num)

theorem c7_binary_last_percentage_clamped_witness :
    runForecastOnBinary "maybe 80%, reconsidering. Probability: 40%" =
        .ok ⟨mkRat 40 100, "maybe 80%, reconsidering. Probability: 40%"⟩ ∧
      (0 : ℚ) ≤ mkRat 40 100 ∧ (mkRat 40 100 : ℚ) ≤ 1 :=
  c7_binary_last_percentage_clamped.1
    "maybe 80%, reconsidering. Probability: 40%" (mkRat 40 100) (by decide)

/-- C8: the bound-message helper is a pure function of
`(lowerBound, upperBound, openLower, openUpper)` returning two independent
strings: the lower-bound message is empty when the lower bound is open and
otherwise names the lower bound value, symmetrically for the upper bound
(both-open bounds give two empty strings); each message depends only on its
own bound's fields. -/
theorem c8_bound_messages (q : NumericQuestion) :
    (q.open_lower_bound = true →
        (createUpperAndLowerBoundMessages q).2 = "") ∧
      (q.open_lower_bound = false →
        (createUpperAndLowerBoundMessages q).2 =
          "The outcome can not be lower than " ++ toString q.lower_bound ++
            ".") ∧
      (q.open_upper_bound = true →
        (createUpperAndLowerBoundMessages q).1 = "") ∧
      (q.open_upper_bound = false →
        (createUpperAndLowerBoundMessages q).1 =
          "The outcome can not be higher than " ++ toString q.upper_bound ++
            ".") ∧
      (∀ q' : NumericQuestion, q.open_upper_bound = q'.open_upper_bound →
        q.upper_bound = q'.upper_bound →
          (createUpperAndLowerBoundMessages q).1 =
            (createUpperAndLowerBoundMessages q').1) ∧
      (∀ q' : NumericQuestion, q.open_lower_bound = q'.open_lower_bound →
        q.lower_bound = q'.lower_bound →
          (createUpperAndLowerBoundMessages q).2 =
            (createUpperAndLowerBoundMessages q').2) := by
  refine ⟨fun h => ?_, fun h => ?_, fun h => ?_, fun h => ?_,
    fun q' h1 h2 => ?_, fun q' h1 h2 => ?_⟩
  · simp [createUpperAndLowerBoundMessages, h]
  · simp [createUpperAndLowerBoundMessages, h]
  · simp [createUpperAndLowerBoundMessages, h]
  · simp [createUpperAndLowerBoundMessages, h]
  · simp [createUpperAndLowerBoundMessages, h1, h2]
  · simp [createUpperAndLowerBoundMessages, h1, h2]

theorem c8_bound_messages_witness :
    (createUpperAndLowerBoundMessages ⟨0, 1000, true, false⟩).2 = "" ∧
      (createUpperAndLowerBoundMessages ⟨0, 1000, true, false⟩).1 =
        "The outcome can not be higher than " ++ toString (1000 : ℚ) ++ "." :=
  ⟨(c8_bound_messages ⟨0, 1000, true, false⟩).1 (by decide),
   (c8_bound_messages ⟨0, 1000, true, false⟩).2.2.2.1 (by decide)⟩

/-! ## Claim C4: the concurrency gate -/

/-- Setting one task's phase swaps that task's contribution to a count. -/
theorem countP_set_phase (f : Phase → Bool) :
    ∀ (s : GateSys) (tid : Nat) (p ph : Phase), s[tid]? = some ph →
      (s.set tid p).countP f + (if f ph then 1 else 0) =
        s.countP f + (if f p then 1 else 0) := by
  intro s
  induction s with
  | nil => intro tid p ph h; simp at h
  | cons a t ih =>
    intro tid p ph h
    match tid with
    | 0 =>
      simp only [List.getElem?_cons_zero, Option.some.injEq] at h
      rw [← h]
      simp only [List.set_cons_zero, List.countP_cons]
      cases hfp : f p <;> cases hfa : f a <;> simp [hfp, hfa]
    | tid' + 1 =>
      simp only [List.getElem?_cons_succ] at h
      have hrec := ih tid' p ph h
      simp only [List.set_cons_succ, List.countP_cons]
      omega

/-- A gate step never changes the number of tracked tasks. -/
theorem gateStep_length (K : Nat) (s s' : GateSys) (e : GEvent)
    (h : gateStep K s e = some s') : s'.length = s.length := by
  cases e <;> simp only [gateStep] at h <;> split at h <;>
    (try split at h) <;>
    first
      | exact Option.noConfusion h
      | (cases h; simp [List.length_set])

/-- A gate run never changes the number of tracked tasks. -/
theorem gateRun_length (K : Nat) :
    ∀ (tr : List GEvent) (s s' : GateSys), gateRun K s tr = some s' →
      s'.length = s.length := by
  intro tr
  induction tr with
  | nil => intro s s' h; cases h; rfl
  | cons e es ih =>
    intro s s' h
    simp only [gateRun] at h
    rcases hstep : gateStep K s e with _ | s1 <;> rw [hstep] at h
    · exact Option.noConfusion h
    · rw [ih s1 s' h, gateStep_length K s s1 e hstep]

/-- A gate step keeps the number of admitted tasks at or below `K`: `enter`
is enabled only below `K`, the body steps hold the slot, and `release` frees
it. -/
theorem gateStep_insideCount (K : Nat) (s s' : GateSys) (e : GEvent)
    (h : gateStep K s e = some s') (hle : insideCount s ≤ K) :
    insideCount s' ≤ K := by
  cases e with
  | enter tid n =>
    rcases hget : s[tid]? with _ | ph <;> rw [gateStep, hget] at h
    · exact Option.noConfusion h
    · cases ph <;> try exact Option.noConfusion h
      by_cases hc : insideCount s < K
      · rw [if_pos hc] at h
        cases h
        have hcount :=
          countP_set_phase holdsSlot s tid (Phase.running n) _ hget
        unfold insideCount at *
        simp [holdsSlot] at hcount
        omega
      · rw [if_neg hc] at h
        exact Option.noConfusion h
  | work tid =>
    rcases hget : s[tid]? with _ | ph <;> rw [gateStep, hget] at h
    · exact Option.noConfusion h
    · rcases ph with _ | m | _ | _ <;> try exact Option.noConfusion h
      rcases m with _ | m
      · exact Option.noConfusion h
      · cases h
        have hcount := countP_set_phase holdsSlot s tid (Phase.running m) _ hget
        unfold insideCount at *
        simp [holdsSlot] at hcount
        omega
  | bodyDone tid =>
    rcases hget : s[tid]? with _ | ph <;> rw [gateStep, hget] at h
    · exact Option.noConfusion h
    · rcases ph with _ | m | _ | _ <;> try exact Option.noConfusion h
      rcases m with _ | m
      · cases h
        have hcount := countP_set_phase holdsSlot s tid Phase.releasing _ hget
        unfold insideCount at *
        simp [holdsSlot] at hcount
        omega
      · exact Option.noConfusion h
  | bodyRaise tid =>
    rcases hget : s[tid]? with _ | ph <;> rw [gateStep, hget] at h
    · exact Option.noConfusion h
    · rcases ph with _ | m | _ | _ <;> try exact Option.noConfusion h
      cases h
      have hcount := countP_set_phase holdsSlot s tid Phase.releasing _ hget
      unfold insideCount at *
      simp [holdsSlot] at hcount
      omega
  | release tid =>
    rcases hget : s[tid]? with _ | ph <;> rw [gateStep, hget] at h
    · exact Option.noConfusion h
    · cases ph <;> try exact Option.noConfusion h
      cases h
      have hcount := countP_set_phase holdsSlot s tid Phase.finished _ hget
      unfold insideCount at *
      simp [holdsSlot] at hcount
      omega

/-- Along any successful gate run the bound `insideCount ≤ K` is preserved. -/
theorem gateRun_insideCount (K : Nat) :
    ∀ (tr : List GEvent) (s s' : GateSys), gateRun K s tr = some s' →
      insideCount s ≤ K → insideCount s' ≤ K := by
  intro tr
  induction tr with
  | nil => intro s s' h hle; cases h; exact hle
  | cons e es ih =>
    intro s s' h hle
    simp only [gateRun] at h
    rcases hstep : gateStep K s e with _ | s1 <;> rw [hstep] at h
    · exact Option.noConfusion h
    · exact ih s1 s' h (gateStep_insideCount K s s1 e hstep hle)

/-- No admitted tasks at start. -/
theorem insideCount_gateInit (n : Nat) : insideCount (gateInit n) = 0 := by
  unfold insideCount gateInit
  rw [List.countP_eq_zero]
  intro a ha
  rw [List.eq_of_mem_replicate ha]
  decide

/-- One gate step performs a `release` of `tid` exactly when it moves `tid`
from a non-`finished` phase to `finished`. -/
theorem gateStep_relStep (K : Nat) (s s' : GateSys) (e : GEvent) (tid : Nat)
    (ph ph1 : Phase) (h : gateStep K s e = some s')
    (hph : s[tid]? = some ph) (hph1 : s'[tid]? = some ph1) :
    (if e = GEvent.release tid then 1 else 0) +
        (if ph = Phase.finished then 1 else 0) =
      (if ph1 = Phase.finished then 1 else 0) := by
  cases e with
  | enter tid' n =>
    rcases hget : s[tid']? with _ | p <;> rw [gateStep, hget] at h
    · exact Option.noConfusion h
    · cases p <;> try exact Option.noConfusion h
      by_cases hc : insideCount s < K
      · rw [if_pos hc] at h
        cases h
        by_cases htid : tid' = tid
        · subst htid
          rw [List.getElem?_set_eq_of_lt _
            (List.getElem?_eq_some.mp hget).1] at hph1
          rw [hget] at hph
          cases hph
          cases hph1
          simp
        · rw [List.getElem?_set_ne htid] at hph1
          rw [hph] at hph1
          cases hph1
          simp
      · rw [if_neg hc] at h
        exact Option.noConfusion h
  | work tid' =>
    rcases hget : s[tid']? with _ | p <;> rw [gateStep, hget] at h
    · exact Option.noConfusion h
    · rcases p with _ | m | _ | _ <;> try exact Option.noConfusion h
      rcases m with _ | m
      · exact Option.noConfusion h
      · cases h
        by_cases htid : tid' = tid
        · subst htid
          rw [List.getElem?_set_eq_of_lt _
            (List.getElem?_eq_some.mp hget).1] at hph1
          rw [hget] at hph
          cases hph
          cases hph1
          simp
        · rw [List.getElem?_set_ne htid] at hph1
          rw [hph] at hph1
          cases hph1
          simp
  | bodyDone tid' =>
    rcases hget : s[tid']? with _ | p <;> rw [gateStep, hget] at h
    · exact Option.noConfusion h
    · rcases p with _ | m | _ | _ <;> try exact Option.noConfusion h
      rcases m with _ | m
      · cases h
        by_cases htid : tid' = tid
        · subst htid
          rw [List.getElem?_set_eq_of_lt _
            (List.getElem?_eq_some.mp hget).1] at hph1
          rw [hget] at hph
          cases hph
          cases hph1
          simp
        · rw [List.getElem?_set_ne htid] at hph1
          rw [hph] at hph1
          cases hph1
          simp
      · exact Option.noConfusion h
  | bodyRaise tid' =>
    rcases hget : s[tid']? with _ | p <;> rw [gateStep, hget] at h
    · exact Option.noConfusion h
    · rcases p with _ | m | _ | _ <;> try exact Option.noConfusion h
      cases h
      by_cases htid : tid' = tid
      · subst htid
        rw [List.getElem?_set_eq_of_lt _
          (List.getElem?_eq_some.mp hget).1] at hph1
        rw [hget] at hph
        cases hph
        cases hph1
        simp
      · rw [List.getElem?_set_ne htid] at hph1
        rw [hph] at hph1
        cases hph1
        simp
  | release tid' =>
    rcases hget : s[tid']? with _ | p <;> rw [gateStep, hget] at h
    · exact Option.noConfusion h
    · cases p <;> try exact Option.noConfusion h
      cases h
      by_cases htid : tid' = tid
      · subst htid
        rw [List.getElem?_set_eq_of_lt _
          (List.getElem?_eq_some.mp hget).1] at hph1
        rw [hget] at hph
        cases hph
        cases hph1
        simp
      · rw [List.getElem?_set_ne htid] at hph1
        rw [hph] at hph1
        cases hph1
        have : ¬ (GEvent.release tid' = GEvent.release tid) := by
          intro hcon
          exact htid (by cases hcon; rfl)
        rw [if_neg this]
        simp

theorem relCount_cons (tid : Nat) (e : GEvent) (tr : List GEvent) :
    relCount tid (e :: tr) =
      (if e = GEvent.release tid then 1 else 0) + relCount tid tr := by
  unfold relCount
  rw [List.countP_cons]
  by_cases h : e = GEvent.release tid <;> simp [h]
  omega

/-- Along a successful gate run, the number of `release tid` events grows
exactly when `tid` moves to `finished` (which only `release` can do). -/
theorem gateRun_relCount (K : Nat) :
    ∀ (tr : List GEvent) (s s' : GateSys), gateRun K s tr = some s' →
      ∀ (tid : Nat) (ph ph' : Phase), s[tid]? = some ph → s'[tid]? = some ph' →
        relCount tid tr + (if ph = Phase.finished then 1 else 0) =
          (if ph' = Phase.finished then 1 else 0) := by
  intro tr
  induction tr with
  | nil =>
    intro s s' h tid ph ph' hph hph'
    cases h
    rw [hph] at hph'
    cases hph'
    simp [relCount]
  | cons e es ih =>
    intro s s' h tid ph ph' hph hph'
    simp only [gateRun] at h
    rcases hstep : gateStep K s e with _ | s1 <;> rw [hstep] at h
    · exact Option.noConfusion h
    · have htid : tid < s1.length := by
        rw [gateStep_length K s s1 e hstep]
        exact (List.getElem?_eq_some.mp hph).1
      rcases hmid : s1[tid]? with _ | ph1
      · rw [List.getElem?_eq_getElem htid] at hmid
        exact Option.noConfusion hmid
      · have hstepRel := gateStep_relStep K s s1 e tid ph ph1 hstep hph hmid
        have hihRel := ih s1 s' h tid ph1 ph' hmid hph'
        rw [relCount_cons]
        omega

/-- A task index that is out of range is never released. -/
theorem gateRun_relCount_oob (K : Nat) :
    ∀ (tr : List GEvent) (s s' : GateSys), gateRun K s tr = some s' →
      ∀ tid, s[tid]? = none → relCount tid tr = 0 := by
  intro tr
  induction tr with
  | nil => intro s s' h tid hn; simp [relCount]
  | cons e es ih =>
    intro s s' h tid hn
    simp only [gateRun] at h
    rcases hstep : gateStep K s e with _ | s1 <;> rw [hstep] at h
    · exact Option.noConfusion h
    · have hnone1 : s1[tid]? = none := by
        rcases hmid : s1[tid]? with _ | p
        · rfl
        · exfalso
          have h1 := (List.getElem?_eq_some.mp hmid).1
          rw [gateStep_length K s s1 e hstep] at h1
          rw [List.getElem?_eq_getElem h1] at hn
          exact Option.noConfusion hn
      have he : ¬ e = GEvent.release tid := by
        intro heq
        rw [heq, gateStep, hn] at hstep
        exact Option.noConfusion hstep
      rw [relCount_cons, if_neg he, ih s1 s' h tid hnone1]

/-- C4: for every schedule of concurrently launched pipelines accepted by the
gate (capacity `K`, the source default being
`maxConcurrentQuestions = 2`), at no instant are more than `K` pipelines
simultaneously inside the gate-guarded region, and each finished pipeline's
slot was released exactly once — `finished` is reachable only through the
`release` epilogue, which both the normal `bodyDone` exit and the raising
`bodyRaise` exit must pass through — and no pipeline is ever released twice. -/
theorem c4_gate_bound_and_single_release (K n : Nat) (tr : List GEvent)
    (s' : GateSys) (hrun : gateRun K (gateInit n) tr = some s') :
    (∀ (tr₁ tr₂ : List GEvent) (s₁ : GateSys), tr = tr₁ ++ tr₂ →
      gateRun K (gateInit n) tr₁ = some s₁ → insideCount s₁ ≤ K) ∧
    (∀ tid, s'[tid]? = some Phase.finished → relCount tid tr = 1) ∧
    (∀ tid, relCount tid tr ≤ 1) := by
  refine ⟨?_, ?_, ?_⟩
  · intro tr₁ tr₂ s₁ _ hrun₁
    refine gateRun_insideCount K tr₁ _ s₁ hrun₁ ?_
    rw [insideCount_gateInit]
    exact Nat.zero_le K
  · intro tid hfin
    have htid : tid < n := by
      have hlt := (List.getElem?_eq_some.mp hfin).1
      rw [gateRun_length K tr _ s' hrun] at hlt
      simpa [gateInit] using hlt
    have hinit : (gateInit n)[tid]? = some Phase.waiting := by
      simp [gateInit, List.getElem?_replicate, htid]
    have hrel := gateRun_relCount K tr _ s' hrun tid Phase.waiting
      Phase.finished hinit hfin
    simpa using hrel
  · intro tid
    rcases hinit : (gateInit n)[tid]? with _ | ph
    · rw [gateRun_relCount_oob K tr _ s' hrun tid hinit]
      omega
    · have hph : ph = Phase.waiting := by
        simp only [gateInit, List.getElem?_replicate] at hinit
        split at hinit
        · cases hinit
          rfl
        · exact Option.noConfusion hinit
      have htid : tid < s'.length := by
        rw [gateRun_length K tr _ s' hrun]
        have hlt := (List.getElem?_eq_some.mp hinit).1
        simpa [gateInit] using hlt
      have hfin' : s'[tid]? = some (s'.get ⟨tid, htid⟩) := by
        rw [List.getElem?_eq_getElem htid]
        rfl
      have hrel := gateRun_relCount K tr _ s' hrun tid ph
        (s'.get ⟨tid, htid⟩) hinit hfin'
      rw [hph] at hrel
      rw [show (if Phase.waiting = Phase.finished then (1 : Nat) else 0) = 0
        from by simp] at hrel
      split at hrel <;> omega

theorem c4_gate_bound_and_single_release_witness :
    insideCount [Phase.running 1, Phase.running 1, Phase.waiting] ≤
        maxConcurrentQuestions ∧
      relCount 0
        [GEvent.enter 0 1, GEvent.enter 1 1, GEvent.bodyRaise 0,
         GEvent.release 0, GEvent.enter 2 0, GEvent.work 1, GEvent.bodyDone 1,
         GEvent.release 1, GEvent.bodyDone 2, GEvent.release 2] = 1 ∧
      relCount 1
        [GEvent.enter 0 1, GEvent.enter 1 1, GEvent.bodyRaise 0,
         GEvent.release 0, GEvent.enter 2 0, GEvent.work 1, GEvent.bodyDone 1,
         GEvent.release 1, GEvent.bodyDone 2, GEvent.release 2] ≤ 1 :=
  have hrun : gateRun maxConcurrentQuestions (gateInit 3)
      [GEvent.enter 0 1, GEvent.enter 1 1, GEvent.bodyRaise 0,
       GEvent.release 0, GEvent.enter 2 0, GEvent.work 1, GEvent.bodyDone 1,
       GEvent.release 1, GEvent.bodyDone 2, GEvent.release 2] =
      some [Phase.finished, Phase.finished, Phase.finished] := by decide
  ⟨(c4_gate_bound_and_single_release maxConcurrentQuestions 3 _ _ hrun).1
      [GEvent.enter 0 1, GEvent.enter 1 1]
      [GEvent.bodyRaise 0, GEvent.release 0, GEvent.enter 2 0, GEvent.work 1,
       GEvent.bodyDone 1, GEvent.release 1, GEvent.bodyDone 2,
       GEvent.release 2]
      [Phase.running 1, Phase.running 1, Phase.waiting] (by decide) (by decide),
   (c4_gate_bound_and_single_release maxConcurrentQuestions 3 _ _ hrun).2.1 0
      (by decide),
   (c4_gate_bound_and_single_release maxConcurrentQuestions 3 _ _ hrun).2.2 1⟩
